import Mathlib

/-!
Verification of the containerd server-config subsystem
(`services/server/config/config.go`).

The Go source is shallowly embedded below:
* Go `string`/`int`/`bool` become `String`/`Int`/`Bool`;
* Go maps (`map[string]T`) become association lists `List (String × T)`
  with `lookupKey`/`setKey` giving the map semantics;
* the filesystem consulted by `loadConfigFile` and `filepath.Glob` is a
  parameter: a list of decodable files (path × decoded tree) and the list
  of existing file names used for glob matching;
* fallible operations return `Except`/`Option`, with structured error
  values standing for the distinct Go error messages.
-/

/-! ## Character-list string primitives

The Lean core versions of `String.startsWith`, `String.contains` and
`String.splitOn` are defined by recursion on byte positions and do not
reduce inside the kernel, so the corresponding Go standard-library
functions are embedded structurally over `String.data` instead. -/

/-- Whether the first list is an initial run of the second
(Go `strings.HasPrefix` on the underlying characters). -/
def charsStartWith : List Char → List Char → Bool
  | [], _ => true
  | _ :: _, [] => false
  | p :: ps, c :: cs => p == c && charsStartWith ps cs

/-- Go `strings.HasPrefix(s, pre)`. -/
def strStartsWith (s pre : String) : Bool :=
  charsStartWith pre.data s.data

/-- Go `strings.Contains(s, string(c))` for a one-character needle, as
used by the source for `*` and `/`. -/
def strContains (s : String) (c : Char) : Bool :=
  s.data.contains c

/-- Splitting a character list at every occurrence of a separator; the
result always has one more part than there are separators. -/
def splitOnChar (c : Char) : List Char → List (List Char)
  | [] => [[]]
  | a :: rest =>
    match splitOnChar c rest with
    | [] => [[a]]
    | s :: ss => if a == c then [] :: s :: ss else (a :: s) :: ss

/-- Go `strings.Split(s, string(c))` for a one-character separator — the
unlimited form of `strings.SplitN`, with
`len(SplitN(s, sep, 4)) = min 4 (len(Split(s, sep)))`. -/
def splitString (c : Char) (s : String) : List String :=
  (splitOnChar c s.data).map String.mk

/-! ## Path model (Go `path/filepath`, Unix rules) -/

/-- Go `filepath.IsAbs` on Unix: the path starts with a slash. -/
def isAbs (p : String) : Bool :=
  strStartsWith p "/"

/-- Go `filepath.Clean` on Unix, on the list of slash-separated segments:
empty and `.` segments are dropped beforehand; `..` pops a previous
non-`..` segment, is dropped at the root of a rooted path, and is kept
otherwise.  The accumulator holds the output segments in reverse. -/
def cleanSegs (rooted : Bool) (segs : List String) : List String :=
  segs.foldl
    (fun acc seg =>
      if seg = ".." then
        match acc with
        | [] => if rooted then [] else [".."]
        | a :: rest => if a = ".." then ".." :: a :: rest else rest
      else seg :: acc)
    []

/-- Go `filepath.Clean` on Unix paths. -/
def clean (p : String) : String :=
  let rooted := isAbs p
  let segs := (splitString '/' p).filter (fun s => !(s = "" || s = "."))
  let body := String.intercalate "/" (cleanSegs rooted segs).reverse
  if rooted then
    if body = "" then "/" else "/" ++ body
  else
    if body = "" then "." else body

/-- Go `filepath.Dir` on Unix: everything up to (and including) the final
slash, cleaned; a path without a slash has directory `.`. -/
def dir (p : String) : String :=
  if strContains p '/' then
    clean (String.intercalate "/" (splitString '/' p).dropLast ++ "/")
  else
    "."

/-- Go `filepath.Join` restricted to two elements as used by the source:
non-empty elements joined with a slash, then cleaned; all-empty input
yields the empty string. -/
def joinPath (a b : String) : String :=
  if a = "" then
    if b = "" then "" else clean b
  else if b = "" then clean a
  else clean (a ++ "/" ++ b)

/-- Matching of one slash-free pattern segment against one name segment,
as in Go `path/filepath.Match`: `*` matches any (possibly empty) run of
characters within the segment, and every other character matches itself.
The `?`, `[...]` and `\x5c` metacharacters of Go `Match` (and the
`ErrBadPattern` failures only they can produce) are not used by
the import expressions this code consumes and are not modelled. -/
def segMatchF : Nat → List Char → List Char → Bool
  | _, [], [] => true
  | _, [], _ :: _ => false
  | 0, _ :: _, _ => false
  | f + 1, '*' :: ps, [] => segMatchF f ps []
  | f + 1, '*' :: ps, c :: ns =>
    segMatchF f ps (c :: ns) || segMatchF f ('*' :: ps) ns
  | _ + 1, _ :: _, [] => false
  | f + 1, p :: ps, c :: ns => p == c && segMatchF f ps ns

/-- Wrapper supplying the fuel.  Every `segMatchF` step shrinks
pattern + name by at least one while spending one unit of fuel, so
starting from `pattern + name + 1` the fuel never reaches zero and the
fuel argument only serves to make the recursion structural. -/
def segMatch (ps ns : List Char) : Bool :=
  segMatchF (ps.length + ns.length + 1) ps ns

/-- Go `filepath.Match` (restricted as in `segMatch`): the pattern and the
name are split on slashes and must have the same number of segments, each
matching segment-wise (`*` never crosses a slash). -/
def pathMatch (pattern name : String) : Bool :=
  let ps := splitString '/' pattern
  let ns := splitString '/' name
  ps.length == ns.length &&
    (List.zip ps ns).all (fun e => segMatch e.1.data e.2.data)

/-- Go `filepath.Glob` over a model filesystem: `names` is the list of
existing file names exactly as the OS would report them (absolute names
for absolute patterns, working-directory-relative names for relative
patterns); the matches are returned in the model's directory order. -/
def glob (names : List String) (pattern : String) : List String :=
  names.filter (fun n => pathMatch pattern n)

/-! ## Association-list model of Go maps -/

/-- Lookup of a key in a Go map modelled as an association list. -/
def lookupKey {α : Type} : List (String × α) → String → Option α
  | [], _ => none
  | e :: rest, k => if e.1 = k then some e.2 else lookupKey rest k

/-- Go map assignment `m[k] = v`: replace the value when the key is
present, append the binding otherwise. -/
def setKey {α : Type} (m : List (String × α)) (k : String) (v : α) :
    List (String × α) :=
  if (lookupKey m k).isSome then
    m.map (fun e => if e.1 = k then (k, v) else e)
  else
    m ++ [(k, v)]

/-! ## Data model (`Config` and its nested sections, config.go lines 40–178) -/

/-- Go struct `GRPCConfig`. -/
structure GRPCConfig where
  Address : String
  TCPAddress : String
  TCPTLSCA : String
  TCPTLSCert : String
  TCPTLSKey : String
  UID : Int
  GID : Int
  MaxRecvMsgSize : Int
  MaxSendMsgSize : Int
  deriving Repr, DecidableEq

/-- Go struct `TTRPCConfig`. -/
structure TTRPCConfig where
  Address : String
  UID : Int
  GID : Int
  deriving Repr, DecidableEq

/-- Go struct `Debug`. -/
structure DebugConfig where
  Address : String
  UID : Int
  GID : Int
  Level : String
  Format : String
  deriving Repr, DecidableEq

/-- Go struct `MetricsConfig`. -/
structure MetricsConfig where
  Address : String
  GRPCHistogram : Bool
  deriving Repr, DecidableEq

/-- Go struct `CgroupConfig`. -/
structure CgroupConfig where
  Path : String
  deriving Repr, DecidableEq

/-- Go struct `ProxyPlugin` (the Go field `Type` is spelled `Type'` here
because `Type` is reserved in Lean). -/
structure ProxyPlugin where
  Type' : String
  Address : String
  Platform : String
  deriving Repr, DecidableEq

/-- Go struct `StreamProcessor`. -/
structure StreamProcessor where
  Accepts : List String
  Returns : String
  Path : String
  Args : List String
  Env : List String
  deriving Repr, DecidableEq

/-- Payload of one entry of the `Plugins` map.  In Go it is an untyped
`interface\x7b\x7d` holding the raw decoded TOML table; the code under
verification never looks inside it (only `Config.Decode`, out of scope
here, re-serializes it), so it is modelled as an abstract token. -/
abbrev Blob := String

/-- Go struct `Config` (config.go lines 40–79). -/
structure Config where
  Version : Int
  Root : String
  State : String
  TempDir : String
  PluginDir : String
  GRPC : GRPCConfig
  TTRPC : TTRPCConfig
  Debug : DebugConfig
  Metrics : MetricsConfig
  DisabledPlugins : List String
  RequiredPlugins : List String
  Plugins : List (String × Blob)
  OOMScore : Int
  Cgroup : CgroupConfig
  ProxyPlugins : List (String × ProxyPlugin)
  Timeouts : List (String × String)
  Imports : List String
  StreamProcessors : List (String × StreamProcessor)
  deriving Repr, DecidableEq

/-- The Go zero value `&Config\x7b\x7d`. -/
def emptyConfig : Config where
  Version := 0
  Root := ""
  State := ""
  TempDir := ""
  PluginDir := ""
  GRPC := ⟨"", "", "", "", "", 0, 0, 0, 0⟩
  TTRPC := ⟨"", 0, 0⟩
  Debug := ⟨"", 0, 0, "", ""⟩
  Metrics := ⟨"", false⟩
  DisabledPlugins := []
  RequiredPlugins := []
  Plugins := []
  OOMScore := 0
  Cgroup := ⟨""⟩
  ProxyPlugins := []
  Timeouts := []
  Imports := []
  StreamProcessors := []

/-! ## Merge engine (`mergeConfig`, config.go lines 340–373)

The Go code calls `mergo.Merge(to, from, mergo.WithOverride,
mergo.WithAppendSlice)` and then overwrites every key of the four map
sections with `from`'s value.  mergo with these options behaves per field
kind as follows: a scalar of `from` overrides `to` unless it is the zero
value of its kind; slices are appended (`to` then `from`); nested structs
are merged recursively field by field; maps are merged key by key.  The
subsequent explicit loops re-assign `from`'s value wholesale for every
key of `from` in the `Plugins`, `StreamProcessors`, `ProxyPlugins` and
`Timeouts` maps, so the composite effect on those maps — modelled by
`mergeMapEntries` — is: keys of `from` carry exactly `from`'s value,
keys only in `to` keep `to`'s value. -/

/-- mergo scalar rule for strings: `src` wins unless it is empty. -/
def mergeString (dst src : String) : String :=
  if src = "" then dst else src

/-- mergo scalar rule for integers: `src` wins unless it is `0`. -/
def mergeInt (dst src : Int) : Int :=
  if src = 0 then dst else src

/-- mergo scalar rule for booleans: `src` wins unless it is `false`. -/
def mergeBool (dst src : Bool) : Bool :=
  if src = false then dst else src

/-- mergo `WithAppendSlice` rule: `dst`'s elements then `src`'s. -/
def mergeList {α : Type} (dst src : List α) : List α :=
  dst ++ src

/-- Composite map rule of `mergeConfig` (mergo key-wise merge followed by
the wholesale re-assignment loop): every key of `src` is assigned `src`'s
value into `dst`, in `src`'s iteration order. -/
def mergeMapEntries {α : Type} (dst src : List (String × α)) :
    List (String × α) :=
  src.foldl (fun m e => setKey m e.1 e.2) dst

/-- Field-by-field mergo recursion into the nested `GRPCConfig`. -/
def mergeGRPC (dst src : GRPCConfig) : GRPCConfig where
  Address := mergeString dst.Address src.Address
  TCPAddress := mergeString dst.TCPAddress src.TCPAddress
  TCPTLSCA := mergeString dst.TCPTLSCA src.TCPTLSCA
  TCPTLSCert := mergeString dst.TCPTLSCert src.TCPTLSCert
  TCPTLSKey := mergeString dst.TCPTLSKey src.TCPTLSKey
  UID := mergeInt dst.UID src.UID
  GID := mergeInt dst.GID src.GID
  MaxRecvMsgSize := mergeInt dst.MaxRecvMsgSize src.MaxRecvMsgSize
  MaxSendMsgSize := mergeInt dst.MaxSendMsgSize src.MaxSendMsgSize

/-- Field-by-field mergo recursion into the nested `TTRPCConfig`. -/
def mergeTTRPC (dst src : TTRPCConfig) : TTRPCConfig where
  Address := mergeString dst.Address src.Address
  UID := mergeInt dst.UID src.UID
  GID := mergeInt dst.GID src.GID

/-- Field-by-field mergo recursion into the nested `Debug` section. -/
def mergeDebug (dst src : DebugConfig) : DebugConfig where
  Address := mergeString dst.Address src.Address
  UID := mergeInt dst.UID src.UID
  GID := mergeInt dst.GID src.GID
  Level := mergeString dst.Level src.Level
  Format := mergeString dst.Format src.Format

/-- Field-by-field mergo recursion into the nested `MetricsConfig`. -/
def mergeMetrics (dst src : MetricsConfig) : MetricsConfig where
  Address := mergeString dst.Address src.Address
  GRPCHistogram := mergeBool dst.GRPCHistogram src.GRPCHistogram

/-- Field-by-field mergo recursion into the nested `CgroupConfig`. -/
def mergeCgroup (dst src : CgroupConfig) : CgroupConfig where
  Path := mergeString dst.Path src.Path

/-- Go `mergeConfig(to, from)` (config.go lines 349–373), with `dst` for
`to` and `src` for `from` (`from` is reserved in Lean).  The Go function
returns an error only when mergo meets mismatched types, which cannot
happen for two values of the same `Config` type, so the embedding is
total. -/
def mergeConfig (dst src : Config) : Config where
  Version := mergeInt dst.Version src.Version
  Root := mergeString dst.Root src.Root
  State := mergeString dst.State src.State
  TempDir := mergeString dst.TempDir src.TempDir
  PluginDir := mergeString dst.PluginDir src.PluginDir
  GRPC := mergeGRPC dst.GRPC src.GRPC
  TTRPC := mergeTTRPC dst.TTRPC src.TTRPC
  Debug := mergeDebug dst.Debug src.Debug
  Metrics := mergeMetrics dst.Metrics src.Metrics
  DisabledPlugins := mergeList dst.DisabledPlugins src.DisabledPlugins
  RequiredPlugins := mergeList dst.RequiredPlugins src.RequiredPlugins
  Plugins := mergeMapEntries dst.Plugins src.Plugins
  OOMScore := mergeInt dst.OOMScore src.OOMScore
  Cgroup := mergeCgroup dst.Cgroup src.Cgroup
  ProxyPlugins := mergeMapEntries dst.ProxyPlugins src.ProxyPlugins
  Timeouts := mergeMapEntries dst.Timeouts src.Timeouts
  Imports := mergeList dst.Imports src.Imports
  StreamProcessors := mergeMapEntries dst.StreamProcessors src.StreamProcessors

/-! ## Validator (`GetVersion` / `ValidateV2`, config.go lines 96–130) -/

/-- Go `(*Config).GetVersion` (config.go lines 96–101): a zero (absent)
version is reported as version 1. -/
def Config.GetVersion (c : Config) : Int :=
  if c.Version = 0 then 1 else c.Version

/-- The plugin-identifier check of `ValidateV2` (config.go line 115):
`strings.HasPrefix(p, "io.containerd.")` and
`len(strings.SplitN(p, ".", 4)) >= 4`.  Since `SplitN` with limit 4
returns `min 4 n` parts where `n` is the number of unlimited parts, the
limit-4 count is at least 4 exactly when the unlimited count is. -/
def validPluginURI (p : String) : Bool :=
  strStartsWith p "io.containerd." && 4 ≤ (splitString '.' p).length

/-- The distinct error values produced by `ValidateV2`.  The constructors
stand for the distinct Go error messages; in particular
`noLongerSupportedV1` is the "version `1` is no longer supported since
containerd v2.0" message and `unsupportedVersion v` the generic
"expected containerd config version `2`, got `v`" message. -/
inductive ValidationError where
  | noLongerSupportedV1
  | unsupportedVersion (v : Int)
  | invalidDisabledPluginURI (p : String)
  | invalidRequiredPluginURI (p : String)
  | invalidPluginKeyURI (p : String)
  deriving Repr, DecidableEq

/-- Go `(*Config).ValidateV2` (config.go lines 104–130); `none` stands
for the Go `nil` return.  Only the version, the disabled-plugin list, the
required-plugin list and the keys of the `Plugins` map are checked; the
Go `for ... range` over each list reports the first offending element
(`List.find?` here; for the `Plugins` map Go's iteration order is
unspecified and insertion order is used). -/
def Config.ValidateV2 (c : Config) : Option ValidationError :=
  let v := c.GetVersion
  if v = 1 then some .noLongerSupportedV1
  else if v ≠ 2 then some (.unsupportedVersion v)
  else
    match c.DisabledPlugins.find? (fun p => !validPluginURI p) with
    | some p => some (.invalidDisabledPluginURI p)
    | none =>
      match c.RequiredPlugins.find? (fun p => !validPluginURI p) with
      | some p => some (.invalidRequiredPluginURI p)
      | none =>
        match (c.Plugins.map Prod.fst).find? (fun p => !validPluginURI p) with
        | some p => some (.invalidPluginKeyURI p)
        | none => none

/-! ## Import resolver (`resolveImports`, config.go lines 316–338) -/

/-- Go `resolveImports(parent, imports)` (config.go lines 316–338) over a
model filesystem name list `names` consulted by `glob`.  An expression
containing `*` is passed to `glob` untouched — in particular it is not
cleaned, not joined to `parent`'s directory, and the matches are appended
exactly as `glob` reports them; any other expression is cleaned and, when
not absolute, joined to the directory of the parent config file. -/
def resolveImports (names : List String) (parent : String)
    (imports : List String) : List String :=
  imports.foldl
    (fun out path =>
      if strContains path '*' then
        out ++ glob names path
      else
        let path := clean path
        let path := if isAbs path then path else joinPath (dir parent) path
        out ++ [path])
    []

/-! ## Load orchestrator (`LoadConfig`, config.go lines 213–261) -/

/-- Filtering with a stronger predicate keeps at most as many elements. -/
theorem length_filter_le_of_imp {α : Type} (l : List α) (p q : α → Bool)
    (h : ∀ a, p a = true → q a = true) :
    (l.filter p).length ≤ (l.filter q).length := by
  induction l with
  | nil => simp
  | cons a t ih =>
    rw [List.filter_cons, List.filter_cons]
    by_cases hp : p a = true
    · rw [if_pos hp, if_pos (h a hp)]
      simpa using ih
    · rw [if_neg hp]
      by_cases hq : q a = true
      · rw [if_pos hq]
        exact Nat.le_succ_of_le ih
      · rw [if_neg hq]
        exact ih

/-- Termination measure of the load loop: visiting a not-yet-visited path
that the filesystem can deliver strictly shrinks the number of
filesystem entries whose key is unvisited. -/
theorem unloaded_measure_lt {fs : List (String × Config)}
    {loaded : List String} {path : String} {cfg : Config}
    (hfind : lookupKey fs path = some cfg) (hmem : path ∉ loaded) :
    (fs.filter fun e => decide (e.1 ∉ path :: loaded)).length <
      (fs.filter fun e => decide (e.1 ∉ loaded)).length := by
  induction fs with
  | nil => simp [lookupKey] at hfind
  | cons e t ih =>
    rw [List.filter_cons, List.filter_cons]
    by_cases he : e.1 = path
    · rw [if_neg (by simp [he]), if_pos (by simp [he, hmem])]
      have hle := length_filter_le_of_imp t
        (fun e => decide (e.1 ∉ path :: loaded))
        (fun e => decide (e.1 ∉ loaded))
        (by
          intro a ha
          simp only [decide_eq_true_eq, List.mem_cons, not_or] at ha ⊢
          exact ha.2)
      simp only [List.length_cons]
      omega
    · have h3 : decide (e.1 ∉ path :: loaded) = decide (e.1 ∉ loaded) := by
        simp [List.mem_cons, he]
      have hfind' : lookupKey t path = some cfg := by
        simpa [lookupKey, he] using hfind
      have hlt := ih hfind'
      rw [h3]
      by_cases hc : decide (e.1 ∉ loaded) = true
      · rw [if_pos hc, if_pos hc]
        simpa using hlt
      · rw [if_neg hc, if_neg hc]
        exact hlt

/-- Errors returned by `LoadConfig`.  `invalidArgument` is the
`errdefs.ErrInvalidArgument`-wrapped nil-out error (line 216);
`fileNotFound` stands for the fatal `loadConfigFile` failures (the file
cannot be opened or decoded — the model filesystem `fs` lists exactly the
readable, decodable files together with their decoded trees); `validation`
carries the `ValidateV2` error, which Go additionally wraps in a
"failed to load TOML from %s" message. -/
inductive LoadError where
  | invalidArgument
  | fileNotFound (path : String)
  | validation (e : ValidationError)
  deriving Repr, DecidableEq

/-- The body of `LoadConfig`'s `for len(pending) > 0` loop (config.go
lines 224–248).  `fs` maps each loadable path to its decoded tree;
`loaded` is the visited set, as the list of visited paths most recent
first (Go builds `loaded` as a map and later iterates it in unspecified
order; the model commits to this one admissible order); `out` is the
accumulator.  On success it returns the accumulator and the visited
list. -/
def loadLoop (fs : List (String × Config)) (out : Config)
    (loaded pending : List String) :
    Except LoadError (Config × List String) :=
  match pending with
  | [] => Except.ok (out, loaded)
  | path :: rest =>
    if hmem : path ∈ loaded then
      loadLoop fs out loaded rest
    else
      match hfind : lookupKey fs path with
      | none => Except.error (LoadError.fileNotFound path)
      | some cfg =>
        loadLoop fs (mergeConfig out cfg) (path :: loaded)
          (rest ++ resolveImports (List.map Prod.fst fs) path cfg.Imports)
termination_by
  ((fs.filter fun e => decide (e.1 ∉ loaded)).length, pending.length)
decreasing_by
  · exact Prod.Lex.right _ (Nat.lt_succ_self _)
  · exact Prod.Lex.left _ _ (unloaded_measure_lt hfind hmem)

/-- Go `LoadConfig(ctx, path, out)` (config.go lines 213–261) over the
model filesystem `fs`.  A nil `out` pointer is modelled by `none`.  After
the queue drains the import list of the result is replaced by the visited
list, then `ValidateV2` runs (Go wraps its error with the last value of
the loop variable `path`; the wrapping text does not affect the error's
identity and is not recorded). -/
def LoadConfig (fs : List (String × Config)) (path : String)
    (outOpt : Option Config) : Except LoadError Config :=
  match outOpt with
  | none => Except.error LoadError.invalidArgument
  | some out =>
    (loadLoop fs out [] [path]).bind fun r =>
      let result := { r.1 with Imports := r.2 }
      match result.ValidateV2 with
      | some e => Except.error (LoadError.validation e)
      | none => Except.ok result

/-- Reachability in the import graph of the model filesystem `fs`: the
paths visited, starting from a root, by repeatedly following the
resolved import lists of loadable files. -/
inductive Reaches (fs : List (String × Config)) : String → String → Prop where
  | refl (p : String) : Reaches fs p p
  | step {p q r : String} {cfg : Config} (hf : lookupKey fs p = some cfg)
      (hq : q ∈ resolveImports (List.map Prod.fst fs) p cfg.Imports)
      (hr : Reaches fs q r) : Reaches fs p r

/-! ## Document decoder model (`loadConfigFile`, config.go lines 263–310)

The TOML decoding itself is performed by the third-party go-toml library,
which is not part of this repository; only the strict-then-lenient
orchestration around it is (config.go lines 273–307).  The decoder is
therefore modelled from the spec over an abstract document: a TOML
document is a list of top-level entries, each either a recognized key
carrying its payload or an unrecognized key; a decoded tree is the map of
recognized keys to payloads built by applying the entries in order. -/

/-- One top-level entry of a model TOML document. -/
inductive TomlEntry where
  | known (key : String) (value : String)
  | unknown (key : String)
  deriving Repr, DecidableEq

/-- Whether an entry's key is part of the target schema. -/
def TomlEntry.isKnown : TomlEntry → Bool
  | .known _ _ => true
  | .unknown _ => false

/-- A decoded configuration tree of the decoder model: the map of
recognized top-level keys to their decoded payloads. -/
abbrev DecodedTree := List (String × String)

/-- Modelled from the spec: applying one document entry to a target tree.
A recognized key sets its field; in lenient mode an unrecognized key is
silently ignored. -/
def applyEntry (t : DecodedTree) : TomlEntry → DecodedTree
  | .known k v => setKey t k v
  | .unknown _ => t

/-- Modelled from the spec: lenient decoding (`toml.NewDecoder(f).Decode`)
applies every entry in document order to the target `t`, ignoring
unrecognized keys. -/
def lenientDecode (doc : List TomlEntry) (t : DecodedTree) : DecodedTree :=
  doc.foldl applyEntry t

/-- The unrecognized top-level keys of a document, in document order —
the keys reported by go-toml's `StrictMissingError.Errors`. -/
def strictUnknowns (doc : List TomlEntry) : List String :=
  doc.filterMap fun e =>
    match e with
    | .unknown k => some k
    | .known _ _ => none

/-- Modelled from the spec: strict decoding
(`DisallowUnknownFields().Decode`) fails with the list of unrecognized
keys when there is one, and otherwise decodes like the lenient pass. -/
def strictDecode (doc : List TomlEntry) : Except (List String) DecodedTree :=
  if strictUnknowns doc = [] then Except.ok (lenientDecode doc [])
  else Except.error (strictUnknowns doc)

/-- Go `loadConfigFile` orchestration (config.go lines 273–307) over the
decoder model: try the strict pass; on a strict-missing failure emit one
warning per offending key and retry leniently against a fresh empty
target (`config = &Config\x7b\x7d`, line 287 — not the state left by the
failed strict pass), rereading the document from the start (the
`f.Seek(0, io.SeekStart)` of line 288).  The result is the decoded tree
together with the emitted warnings (one per ignored unknown key).
Malformed-syntax failures, fatal in Go, cannot arise in the entry-list
document model. -/
def loadConfigFileModel (doc : List TomlEntry) :
    DecodedTree × List String :=
  match strictDecode doc with
  | Except.ok t => (t, [])
  | Except.error ks => (lenientDecode doc [], ks)

/-! ## Step lemmas for the load loop -/

/-- Draining an empty queue returns the accumulator and the visited list. -/
theorem loadLoop_nil (fs : List (String × Config)) (out : Config)
    (loaded : List String) :
    loadLoop fs out loaded [] = Except.ok (out, loaded) := by
  rw [loadLoop]

/-- An already-visited path is skipped. -/
theorem loadLoop_skip {path : String} {loaded : List String}
    (fs : List (String × Config)) (out : Config) (rest : List String)
    (hmem : path ∈ loaded) :
    loadLoop fs out loaded (path :: rest) = loadLoop fs out loaded rest := by
  rw [loadLoop]
  rw [dif_pos hmem]

/-- A fresh path missing from the filesystem aborts the load. -/
theorem loadLoop_missing {fs : List (String × Config)} {path : String}
    {loaded : List String} (out : Config) (rest : List String)
    (hmem : path ∉ loaded) (hfind : lookupKey fs path = none) :
    loadLoop fs out loaded (path :: rest) =
      Except.error (LoadError.fileNotFound path) := by
  rw [loadLoop]
  rw [dif_neg hmem]
  split
  · rfl
  · simp_all

/-- A fresh loadable path is decoded, merged, marked visited, and its
resolved imports are appended to the queue. -/
theorem loadLoop_step {fs : List (String × Config)} {path : String}
    {loaded : List String} {cfg : Config} (out : Config) (rest : List String)
    (hmem : path ∉ loaded) (hfind : lookupKey fs path = some cfg) :
    loadLoop fs out loaded (path :: rest) =
      loadLoop fs (mergeConfig out cfg) (path :: loaded)
        (rest ++ resolveImports (List.map Prod.fst fs) path cfg.Imports) := by
  rw [loadLoop]
  rw [dif_neg hmem]
  split
  · simp_all
  · simp_all

/-! ## Invariants of the load loop -/

/-- Reachability extends along one more resolved-import edge at the end. -/
theorem Reaches.snoc {fs : List (String × Config)} {a p q : String}
    {cfg : Config} (h : Reaches fs a p) (hf : lookupKey fs p = some cfg)
    (hq : q ∈ resolveImports (List.map Prod.fst fs) p cfg.Imports) :
    Reaches fs a q := by
  induction h with
  | refl _ => exact Reaches.step hf hq (Reaches.refl q)
  | step hf' hq' _ ih => exact Reaches.step hf' hq' (ih hf hq)

/-- A set of paths closed under resolved-import edges contains everything
reachable from any of its members. -/
theorem reaches_mem_closed {fs : List (String × Config)} {S : List String}
    (hcl : ∀ p ∈ S, ∀ cfg, lookupKey fs p = some cfg →
      ∀ q ∈ resolveImports (List.map Prod.fst fs) p cfg.Imports, q ∈ S)
    {a b : String} (h : Reaches fs a b) (ha : a ∈ S) : b ∈ S := by
  induction h with
  | refl _ => exact ha
  | step hf hq _ ih => exact ih (hcl _ ha _ hf _ hq)

/-- Main invariant of the load loop.  If the loop starting from the state
(`loaded`, `pending`) succeeds, then the final visited list has no
duplicates, extends `loaded`, absorbs every pending path, contains only
paths reachable from `root` (given that the starting state does), and is
closed under resolved-import edges. -/
theorem loadLoop_spec (fs : List (String × Config)) (root : String)
    (out : Config) (loaded pending : List String)
    (res : Config × List String)
    (hnd : loaded.Nodup)
    (hcl : ∀ p ∈ loaded, ∀ cfg, lookupKey fs p = some cfg →
      ∀ q ∈ resolveImports (List.map Prod.fst fs) p cfg.Imports,
        q ∈ loaded ∨ q ∈ pending)
    (hrl : ∀ p ∈ loaded, Reaches fs root p)
    (hrp : ∀ p ∈ pending, Reaches fs root p)
    (hok : loadLoop fs out loaded pending = Except.ok res) :
    res.2.Nodup ∧ (∀ p ∈ loaded, p ∈ res.2) ∧ (∀ p ∈ pending, p ∈ res.2) ∧
      (∀ p ∈ res.2, Reaches fs root p) ∧
      (∀ p ∈ res.2, ∀ cfg, lookupKey fs p = some cfg →
        ∀ q ∈ resolveImports (List.map Prod.fst fs) p cfg.Imports,
          q ∈ res.2) := by
  match pending with
  | [] =>
    rw [loadLoop_nil] at hok
    cases hok
    refine ⟨hnd, fun p hp => hp, by simp, hrl, ?_⟩
    intro p hp cfg hf q hq
    rcases hcl p hp cfg hf q hq with h | h
    · exact h
    · cases h
  | path :: rest =>
    by_cases hmem : path ∈ loaded
    · rw [loadLoop_skip fs out rest hmem] at hok
      have ih := loadLoop_spec fs root out loaded rest res hnd
        (by
          intro p hp cfg hf q hq
          rcases hcl p hp cfg hf q hq with h | h
          · exact Or.inl h
          · rcases List.mem_cons.mp h with h' | h'
            · exact Or.inl (h' ▸ hmem)
            · exact Or.inr h')
        hrl
        (fun p hp => hrp p (List.mem_cons_of_mem _ hp))
        hok
      refine ⟨ih.1, ih.2.1, ?_, ih.2.2.2.1, ih.2.2.2.2⟩
      intro p hp
      rcases List.mem_cons.mp hp with h' | h'
      · exact ih.2.1 p (h' ▸ hmem)
      · exact ih.2.2.1 p h'
    · cases hfind : lookupKey fs path with
      | none =>
        rw [loadLoop_missing out rest hmem hfind] at hok
        cases hok
      | some cfg =>
        rw [loadLoop_step out rest hmem hfind] at hok
        have ih := loadLoop_spec fs root (mergeConfig out cfg)
          (path :: loaded)
          (rest ++ resolveImports (List.map Prod.fst fs) path cfg.Imports)
          res
          (List.nodup_cons.mpr ⟨hmem, hnd⟩)
          (by
            intro p hp cfg' hf q hq
            rcases List.mem_cons.mp hp with h' | h'
            · subst h'
              rw [hfind] at hf
              cases hf
              exact Or.inr (List.mem_append_right _ hq)
            · rcases hcl p h' cfg' hf q hq with h | h
              · exact Or.inl (List.mem_cons_of_mem _ h)
              · rcases List.mem_cons.mp h with h'' | h''
                · exact Or.inl (h'' ▸ List.mem_cons_self _ _)
                · exact Or.inr (List.mem_append_left _ h''))
          (by
            intro p hp
            rcases List.mem_cons.mp hp with h' | h'
            · exact h' ▸ hrp path (List.mem_cons_self _ _)
            · exact hrl p h')
          (by
            intro q hq
            rcases List.mem_append.mp hq with h' | h'
            · exact hrp q (List.mem_cons_of_mem _ h')
            · exact Reaches.snoc (hrp path (List.mem_cons_self _ _))
                hfind h')
          hok
        refine ⟨ih.1, ?_, ?_, ih.2.2.2.1, ih.2.2.2.2⟩
        · intro p hp
          exact ih.2.1 p (List.mem_cons_of_mem _ hp)
        · intro p hp
          rcases List.mem_cons.mp hp with h' | h'
          · exact h' ▸ ih.2.1 path (List.mem_cons_self _ _)
          · exact ih.2.2.1 p (List.mem_append_left _ h')
termination_by
  ((fs.filter fun e => decide (e.1 ∉ loaded)).length, pending.length)
decreasing_by
  · exact Prod.Lex.right _ (Nat.lt_succ_self _)
  · exact Prod.Lex.left _ _ (unloaded_measure_lt hfind hmem)

/-- A successful run of the load loop from the initial state visits
exactly the paths reachable from the root, each exactly once. -/
theorem loadLoop_run_spec {fs : List (String × Config)} {root : String}
    {out merged : Config} {loaded : List String}
    (hok : loadLoop fs out [] [root] = Except.ok (merged, loaded)) :
    loaded.Nodup ∧ ∀ q, q ∈ loaded ↔ Reaches fs root q := by
  have h := loadLoop_spec fs root out [] [root] (merged, loaded)
    (by simp) (by simp) (by simp)
    (by
      intro p hp
      rcases List.mem_cons.mp hp with h' | h'
      · subst h'
        exact Reaches.refl p
      · cases h')
    hok
  refine ⟨h.1, fun q => ⟨fun hq => h.2.2.2.1 q hq, fun hr => ?_⟩⟩
  exact reaches_mem_closed h.2.2.2.2 hr
    (h.2.2.1 root (List.mem_cons_self _ _))

/-! ## Lookup lemmas for the Go-map model -/

/-- Replacement form of `setKey` finds the new value at the set key. -/
theorem lookupKey_map_replace {α : Type} (m : List (String × α))
    (k : String) (v : α) (hk : (lookupKey m k).isSome) :
    lookupKey (m.map (fun e => if e.1 = k then (k, v) else e)) k = some v := by
  induction m with
  | nil => simp [lookupKey] at hk
  | cons e t ih =>
    by_cases he : e.1 = k
    · simp [lookupKey, he]
    · simp only [List.map_cons, if_neg he]
      rw [lookupKey, if_neg he]
      apply ih
      rw [lookupKey, if_neg he] at hk
      exact hk

/-- Replacement form of `setKey` leaves other keys untouched. -/
theorem lookupKey_map_replace_other {α : Type} (m : List (String × α))
    {k k' : String} (v : α) (hne : k' ≠ k) :
    lookupKey (m.map (fun e => if e.1 = k then (k, v) else e)) k' =
      lookupKey m k' := by
  induction m with
  | nil => rfl
  | cons e t ih =>
    by_cases he : e.1 = k
    · simp only [List.map_cons, if_pos he]
      rw [lookupKey, lookupKey, if_neg (fun hh => hne hh.symm),
        if_neg (fun hh => hne ((he ▸ hh).symm))]
      exact ih
    · simp only [List.map_cons, if_neg he]
      rw [lookupKey, lookupKey]
      by_cases he' : e.1 = k'
      · rw [if_pos he', if_pos he']
      · rw [if_neg he', if_neg he']
        exact ih

/-- Lookup distributes over append when the key is found on the left. -/
theorem lookupKey_append_some {α : Type} {m : List (String × α)}
    {k : String} {v : α} (l : List (String × α))
    (h : lookupKey m k = some v) : lookupKey (m ++ l) k = some v := by
  induction m with
  | nil => simp [lookupKey] at h
  | cons e t ih =>
    rw [List.cons_append, lookupKey]
    rw [lookupKey] at h
    by_cases he : e.1 = k
    · rw [if_pos he] at h ⊢
      exact h
    · rw [if_neg he] at h ⊢
      exact ih h

/-- Lookup distributes over append when the key is absent on the left. -/
theorem lookupKey_append_none {α : Type} {m : List (String × α)}
    {k : String} (l : List (String × α)) (h : lookupKey m k = none) :
    lookupKey (m ++ l) k = lookupKey l k := by
  induction m with
  | nil => rfl
  | cons e t ih =>
    rw [List.cons_append, lookupKey]
    rw [lookupKey] at h
    by_cases he : e.1 = k
    · rw [if_pos he] at h
      cases h
    · rw [if_neg he] at h ⊢
      exact ih h

/-- Go map assignment makes the assigned key map to the assigned value. -/
theorem lookupKey_setKey_self {α : Type} (m : List (String × α))
    (k : String) (v : α) : lookupKey (setKey m k v) k = some v := by
  rw [setKey]
  by_cases h : (lookupKey m k).isSome
  · rw [if_pos h]
    exact lookupKey_map_replace m k v h
  · rw [if_neg h]
    rw [lookupKey_append_none _ (Option.not_isSome_iff_eq_none.mp h)]
    simp [lookupKey]

/-- Go map assignment leaves every other key untouched. -/
theorem lookupKey_setKey_other {α : Type} (m : List (String × α))
    {k k' : String} (v : α) (hne : k' ≠ k) :
    lookupKey (setKey m k v) k' = lookupKey m k' := by
  rw [setKey]
  by_cases h : (lookupKey m k).isSome
  · rw [if_pos h]
    exact lookupKey_map_replace_other m v hne
  · rw [if_neg h]
    by_cases h' : (lookupKey m k').isSome
    · obtain ⟨v', hv⟩ := Option.isSome_iff_exists.mp h'
      rw [lookupKey_append_some _ hv, hv]
    · have hn : lookupKey m k' = none := Option.not_isSome_iff_eq_none.mp h'
      rw [lookupKey_append_none _ hn, hn]
      simp [lookupKey, Ne.symm hne]

/-- A key outside the key list of an association list is not found. -/
theorem lookupKey_eq_none_of_not_mem {α : Type} {m : List (String × α)}
    {k : String} (h : k ∉ m.map Prod.fst) : lookupKey m k = none := by
  induction m with
  | nil => rfl
  | cons e t ih =>
    rw [lookupKey]
    rw [List.map_cons, List.mem_cons, not_or] at h
    rw [if_neg (fun hh => h.1 hh.symm)]
    exact ih h.2

/-- The composite map rule of `mergeConfig`: a key of `src` (with the
Go-map guarantee that `src`'s keys are distinct) maps to exactly `src`'s
value, and a key not in `src` keeps `dst`'s binding. -/
theorem lookupKey_mergeMapEntries {α : Type} (dst src : List (String × α))
    (hnd : (src.map Prod.fst).Nodup) (k : String) :
    lookupKey (mergeMapEntries dst src) k =
      match lookupKey src k with
      | some v => some v
      | none => lookupKey dst k := by
  induction src generalizing dst with
  | nil => rfl
  | cons e t ih =>
    rw [List.map_cons, List.nodup_cons] at hnd
    simp only [mergeMapEntries, List.foldl_cons] at ih ⊢
    rw [ih (setKey dst e.1 e.2) hnd.2]
    by_cases hk : e.1 = k
    · subst hk
      rw [lookupKey_eq_none_of_not_mem hnd.1]
      rw [lookupKey, if_pos rfl]
      exact lookupKey_setKey_self dst e.1 e.2
    · rw [lookupKey, if_neg hk]
      cases ht : lookupKey t k
      · exact lookupKey_setKey_other dst e.2 (fun hh => hk hh.symm)
      · rfl

/-! ## Claim theorems: merge engine -/

/-- C1: after `mergeConfig(to, from)`, in each of the four map sections
(plugin-id→blob, stream-processor, proxy-plugin, timeout) every key
present in `from` maps in the result to exactly `from`'s value for that
key — wholesale, with no field-level combination of the two values — and
every key present only in `to` keeps `to`'s value.  The Go-map origin of
the `from` sections guarantees the distinct-keys hypotheses. -/
theorem mergeConfig_maps_replace_wholesale (dst src : Config)
    (h1 : (src.Plugins.map Prod.fst).Nodup)
    (h2 : (src.StreamProcessors.map Prod.fst).Nodup)
    (h3 : (src.ProxyPlugins.map Prod.fst).Nodup)
    (h4 : (src.Timeouts.map Prod.fst).Nodup) :
    (∀ k v, lookupKey src.Plugins k = some v →
      lookupKey (mergeConfig dst src).Plugins k = some v) ∧
    (∀ k, lookupKey src.Plugins k = none →
      lookupKey (mergeConfig dst src).Plugins k = lookupKey dst.Plugins k) ∧
    (∀ k v, lookupKey src.StreamProcessors k = some v →
      lookupKey (mergeConfig dst src).StreamProcessors k = some v) ∧
    (∀ k, lookupKey src.StreamProcessors k = none →
      lookupKey (mergeConfig dst src).StreamProcessors k =
        lookupKey dst.StreamProcessors k) ∧
    (∀ k v, lookupKey src.ProxyPlugins k = some v →
      lookupKey (mergeConfig dst src).ProxyPlugins k = some v) ∧
    (∀ k, lookupKey src.ProxyPlugins k = none →
      lookupKey (mergeConfig dst src).ProxyPlugins k =
        lookupKey dst.ProxyPlugins k) ∧
    (∀ k v, lookupKey src.Timeouts k = some v →
      lookupKey (mergeConfig dst src).Timeouts k = some v) ∧
    (∀ k, lookupKey src.Timeouts k = none →
      lookupKey (mergeConfig dst src).Timeouts k = lookupKey dst.Timeouts k) := by
  refine ⟨?_, ?_, ?_, ?_, ?_, ?_, ?_, ?_⟩
  · intro k v hk
    rw [show (mergeConfig dst src).Plugins =
      mergeMapEntries dst.Plugins src.Plugins from rfl]
    rw [lookupKey_mergeMapEntries _ _ h1 k, hk]
  · intro k hk
    rw [show (mergeConfig dst src).Plugins =
      mergeMapEntries dst.Plugins src.Plugins from rfl]
    rw [lookupKey_mergeMapEntries _ _ h1 k, hk]
  · intro k v hk
    rw [show (mergeConfig dst src).StreamProcessors =
      mergeMapEntries dst.StreamProcessors src.StreamProcessors from rfl]
    rw [lookupKey_mergeMapEntries _ _ h2 k, hk]
  · intro k hk
    rw [show (mergeConfig dst src).StreamProcessors =
      mergeMapEntries dst.StreamProcessors src.StreamProcessors from rfl]
    rw [lookupKey_mergeMapEntries _ _ h2 k, hk]
  · intro k v hk
    rw [show (mergeConfig dst src).ProxyPlugins =
      mergeMapEntries dst.ProxyPlugins src.ProxyPlugins from rfl]
    rw [lookupKey_mergeMapEntries _ _ h3 k, hk]
  · intro k hk
    rw [show (mergeConfig dst src).ProxyPlugins =
      mergeMapEntries dst.ProxyPlugins src.ProxyPlugins from rfl]
    rw [lookupKey_mergeMapEntries _ _ h3 k, hk]
  · intro k v hk
    rw [show (mergeConfig dst src).Timeouts =
      mergeMapEntries dst.Timeouts src.Timeouts from rfl]
    rw [lookupKey_mergeMapEntries _ _ h4 k, hk]
  · intro k hk
    rw [show (mergeConfig dst src).Timeouts =
      mergeMapEntries dst.Timeouts src.Timeouts from rfl]
    rw [lookupKey_mergeMapEntries _ _ h4 k, hk]

/-- First merge operand of the C1 witness (spec §8's A with k:v1, plus a
key that only `to` mentions in every section). -/
def mapWitnessTo : Config :=
  { emptyConfig with
    Plugins := [("io.containerd.grpc.v1.cri", "v1"),
      ("io.containerd.only.v1.to", "keep")]
    StreamProcessors := [("io.containerd.proc.v1.tar", ⟨["a"], "r1", "p1", [], []⟩)]
    ProxyPlugins := [("io.containerd.proxy.v1.snap", ⟨"snapshot", "addr1", "linux"⟩)]
    Timeouts := [("io.containerd.timeout.shutdown", "3s")] }

/-- Second merge operand of the C1 witness (spec §8's B with k:v2, k2:v3). -/
def mapWitnessFrom : Config :=
  { emptyConfig with
    Plugins := [("io.containerd.grpc.v1.cri", "v2"),
      ("io.containerd.extra.v1.new", "v3")]
    StreamProcessors := [("io.containerd.proc.v1.tar", ⟨["b"], "r2", "p2", ["x"], ["e"]⟩)]
    ProxyPlugins := [("io.containerd.proxy.v1.snap", ⟨"content", "addr2", "windows"⟩)]
    Timeouts := [("io.containerd.timeout.shutdown", "5s")] }

/-- Witness for C1 at the concrete merge of `mapWitnessTo` and
`mapWitnessFrom`: both-keys and `from`-only keys take `from`'s whole
value, the `to`-only key keeps `to`'s value. -/
theorem mergeConfig_maps_replace_wholesale_witness :
    lookupKey (mergeConfig mapWitnessTo mapWitnessFrom).Plugins
      "io.containerd.grpc.v1.cri" = some "v2" ∧
    lookupKey (mergeConfig mapWitnessTo mapWitnessFrom).Plugins
      "io.containerd.extra.v1.new" = some "v3" ∧
    lookupKey (mergeConfig mapWitnessTo mapWitnessFrom).Plugins
      "io.containerd.only.v1.to" =
        lookupKey mapWitnessTo.Plugins "io.containerd.only.v1.to" ∧
    lookupKey (mergeConfig mapWitnessTo mapWitnessFrom).StreamProcessors
      "io.containerd.proc.v1.tar" = some ⟨["b"], "r2", "p2", ["x"], ["e"]⟩ ∧
    lookupKey (mergeConfig mapWitnessTo mapWitnessFrom).ProxyPlugins
      "io.containerd.proxy.v1.snap" = some ⟨"content", "addr2", "windows"⟩ ∧
    lookupKey (mergeConfig mapWitnessTo mapWitnessFrom).Timeouts
      "io.containerd.timeout.shutdown" = some "5s" := by
  have h := mergeConfig_maps_replace_wholesale mapWitnessTo mapWitnessFrom
    (by decide) (by decide) (by decide) (by decide)
  exact ⟨h.1 _ _ (by decide), h.1 _ _ (by decide), h.2.1 _ (by decide),
    h.2.2.1 _ _ (by decide), h.2.2.2.2.1 _ _ (by decide),
    h.2.2.2.2.2.2.1 _ _ (by decide)⟩

/-- C5: merging is order-sensitive for scalar fields — for trees `a` and
`b` that both set the same scalar field to a non-zero value, merging `a`
then `b` into any accumulator leaves `b`'s value and merging `b` then `a`
leaves `a`'s value — and a zero-valued scalar in `from` never overwrites
the value in `to` (shown for a top-level string, a top-level integer, a
nested string, and a nested boolean). -/
theorem mergeConfig_scalar_order_sensitive (acc a b : Config)
    (hsa : a.Root ≠ "") (hsb : b.Root ≠ "")
    (hia : a.OOMScore ≠ 0) (hib : b.OOMScore ≠ 0)
    (hna : a.Debug.Level ≠ "") (hnb : b.Debug.Level ≠ "") :
    ((mergeConfig (mergeConfig acc a) b).Root = b.Root ∧
      (mergeConfig (mergeConfig acc b) a).Root = a.Root) ∧
    ((mergeConfig (mergeConfig acc a) b).OOMScore = b.OOMScore ∧
      (mergeConfig (mergeConfig acc b) a).OOMScore = a.OOMScore) ∧
    ((mergeConfig (mergeConfig acc a) b).Debug.Level = b.Debug.Level ∧
      (mergeConfig (mergeConfig acc b) a).Debug.Level = a.Debug.Level) ∧
    (∀ t f : Config, f.Root = "" → (mergeConfig t f).Root = t.Root) ∧
    (∀ t f : Config, f.OOMScore = 0 →
      (mergeConfig t f).OOMScore = t.OOMScore) ∧
    (∀ t f : Config, f.Debug.Level = "" →
      (mergeConfig t f).Debug.Level = t.Debug.Level) ∧
    (∀ t f : Config, f.Metrics.GRPCHistogram = false →
      (mergeConfig t f).Metrics.GRPCHistogram = t.Metrics.GRPCHistogram) := by
  refine ⟨⟨?_, ?_⟩, ⟨?_, ?_⟩, ⟨?_, ?_⟩, ?_, ?_, ?_, ?_⟩
  · simp [mergeConfig, mergeString, hsb]
  · simp [mergeConfig, mergeString, hsa]
  · simp [mergeConfig, mergeInt, hib]
  · simp [mergeConfig, mergeInt, hia]
  · simp [mergeConfig, mergeDebug, mergeString, hnb]
  · simp [mergeConfig, mergeDebug, mergeString, hna]
  · intro t f hf
    simp [mergeConfig, mergeString, hf]
  · intro t f hf
    simp [mergeConfig, mergeInt, hf]
  · intro t f hf
    simp [mergeConfig, mergeDebug, mergeString, hf]
  · intro t f hf
    simp [mergeConfig, mergeMetrics, mergeBool, hf]

/-- Scalar-bearing tree used by the C5 witness. -/
def scalarWitnessA : Config :=
  { emptyConfig with
    Root := "/var/lib/a"
    OOMScore := -100
    Debug := ⟨"", 0, 0, "info", ""⟩ }

/-- Second scalar-bearing tree used by the C5 witness. -/
def scalarWitnessB : Config :=
  { emptyConfig with
    Root := "/var/lib/b"
    OOMScore := 200
    Debug := ⟨"", 0, 0, "debug", ""⟩ }

/-- Witness for C5 at concrete trees: last-merged wins for non-zero
scalars and the zero-valued scalars of `emptyConfig` never overwrite. -/
theorem mergeConfig_scalar_order_sensitive_witness :
    (mergeConfig (mergeConfig emptyConfig scalarWitnessA) scalarWitnessB).Root =
      scalarWitnessB.Root ∧
    (mergeConfig (mergeConfig emptyConfig scalarWitnessB) scalarWitnessA).Root =
      scalarWitnessA.Root ∧
    (mergeConfig scalarWitnessA emptyConfig).Root = scalarWitnessA.Root := by
  have h := mergeConfig_scalar_order_sensitive emptyConfig scalarWitnessA
    scalarWitnessB (by decide) (by decide) (by decide) (by decide)
    (by decide) (by decide)
  exact ⟨h.1.1, h.1.2, h.2.2.2.1 scalarWitnessA emptyConfig rfl⟩

/-- C6: merging appends the ordered-list fields — the resulting list is
`to`'s elements followed by `from`'s elements for each of the three list
fields of `Config`, so an empty `from` list leaves `to`'s list unchanged
and swapping the merge order swaps the concatenation order. -/
theorem mergeConfig_lists_append (dst src : Config) :
    (mergeConfig dst src).DisabledPlugins =
      dst.DisabledPlugins ++ src.DisabledPlugins ∧
    (mergeConfig dst src).RequiredPlugins =
      dst.RequiredPlugins ++ src.RequiredPlugins ∧
    (mergeConfig dst src).Imports = dst.Imports ++ src.Imports :=
  ⟨rfl, rfl, rfl⟩

/-! ## Claim theorems: validator -/

/-- Counterexample to C2 as stated: a tree with version 0 is rejected
with the version-1 "no longer supported" error — because `GetVersion`
reports an absent (zero) version as version 1 — and not with the generic
unsupported-version error the claim asserts for version 0. -/
theorem validateV2_version0_gets_v1_error :
    Config.ValidateV2 emptyConfig =
      some ValidationError.noLongerSupportedV1 ∧
    some ValidationError.noLongerSupportedV1 ≠
      some (ValidationError.unsupportedVersion 0) := by
  decide

/-- C2 (amended): validation accepts version 2 (returning nil when the
identifier checks pass, shown here with empty identifier lists); rejects
version 1 — and version 0, which `GetVersion` normalizes to 1 — with the
distinct "no longer supported" error; and rejects every other version
with the generic unsupported-version error, which is a different error
from the version-1 message. -/
theorem validateV2_version_rules (c : Config)
    (hd : c.DisabledPlugins = []) (hr : c.RequiredPlugins = [])
    (hp : c.Plugins = []) :
    (c.Version = 2 → Config.ValidateV2 c = none) ∧
    (c.Version = 1 ∨ c.Version = 0 →
      Config.ValidateV2 c = some ValidationError.noLongerSupportedV1) ∧
    (c.Version ≠ 0 → c.Version ≠ 1 → c.Version ≠ 2 →
      Config.ValidateV2 c =
        some (ValidationError.unsupportedVersion c.Version)) ∧
    (∀ v : Int, ValidationError.unsupportedVersion v ≠
      ValidationError.noLongerSupportedV1) := by
  refine ⟨?_, ?_, ?_, fun v h => ValidationError.noConfusion h⟩
  · intro hv
    simp [Config.ValidateV2, Config.GetVersion, hv, hd, hr, hp]
  · rintro (hv | hv) <;>
      simp [Config.ValidateV2, Config.GetVersion, hv]
  · intro h0 h1 h2
    rw [Config.ValidateV2]
    rw [Config.GetVersion, if_neg h0]
    rw [if_neg h1, if_pos h2]

/-- Witness for the amended C2 at concrete versions 2 and 3. -/
theorem validateV2_version_rules_witness :
    Config.ValidateV2 { emptyConfig with Version := 2 } = none ∧
    Config.ValidateV2 { emptyConfig with Version := 3 } =
      some (ValidationError.unsupportedVersion 3) :=
  ⟨(validateV2_version_rules { emptyConfig with Version := 2 }
      rfl rfl rfl).1 rfl,
    (validateV2_version_rules { emptyConfig with Version := 3 }
      rfl rfl rfl).2.2.1 (by decide) (by decide) (by decide)⟩

/-- Version-2 tree whose only stream-processor key has none of the
required identifier shape. -/
def badStreamProcessorConfig : Config :=
  { emptyConfig with
    Version := 2
    StreamProcessors := [("x", ⟨[], "", "", [], []⟩)]
    ProxyPlugins := [("y", ⟨"", "", ""⟩)] }

/-- Counterexample to C9 as stated: validation returns nil on a tree
whose stream-processor key "x" and proxy-plugin key "y" lack both the
`io.containerd.` namespace and the 4-segment shape — `ValidateV2` never
inspects those two maps. -/
theorem validateV2_ignores_processor_and_proxy_keys :
    Config.ValidateV2 badStreamProcessorConfig = none ∧
    "x" ∈ badStreamProcessorConfig.StreamProcessors.map Prod.fst ∧
    "y" ∈ badStreamProcessorConfig.ProxyPlugins.map Prod.fst ∧
    validPluginURI "x" = false ∧ validPluginURI "y" = false := by
  decide

/-- C9 (amended): whenever validation returns nil, every identifier in
the disabled-plugin list, the required-plugin list and the plugin-config
map keys starts with `io.containerd.` and has at least 4 dot-separated
segments; the stream-processor and proxy-plugin map keys are not checked
by `ValidateV2` and carry no such guarantee. -/
theorem validateV2_checked_identifier_shape (c : Config)
    (h : Config.ValidateV2 c = none) :
    (∀ p ∈ c.DisabledPlugins,
      strStartsWith p "io.containerd." = true ∧ 4 ≤ (splitString '.' p).length) ∧
    (∀ p ∈ c.RequiredPlugins,
      strStartsWith p "io.containerd." = true ∧ 4 ≤ (splitString '.' p).length) ∧
    (∀ p ∈ c.Plugins.map Prod.fst,
      strStartsWith p "io.containerd." = true ∧ 4 ≤ (splitString '.' p).length) := by
  have hshape : ∀ (l : List String),
      l.find? (fun p => !validPluginURI p) = none →
      ∀ p ∈ l, strStartsWith p "io.containerd." = true ∧
        4 ≤ (splitString '.' p).length := by
    intro l hl p hp
    have hx := List.find?_eq_none.mp hl p hp
    have hv : validPluginURI p = true := by
      cases hb : validPluginURI p
      · exact absurd (by rw [hb]; rfl) hx
      · rfl
    rw [validPluginURI, Bool.and_eq_true] at hv
    exact ⟨hv.1, by simpa using hv.2⟩
  rw [Config.ValidateV2] at h
  split at h
  · cases h
  · split at h
    · cases h
    · split at h
      · cases h
      · split at h
        · cases h
        · split at h
          · cases h
          · refine ⟨hshape _ ?_, hshape _ ?_, hshape _ ?_⟩ <;> assumption

/-- Version-2 tree with well-formed identifiers in every checked place. -/
def validatedConfig : Config :=
  { emptyConfig with
    Version := 2
    DisabledPlugins := ["io.containerd.grpc.v1.cri"]
    RequiredPlugins := ["io.containerd.monitor.v1.cgroups"]
    Plugins := [("io.containerd.gc.v1.scheduler", "blob")] }

/-- Witness for the amended C9 at `validatedConfig`. -/
theorem validateV2_checked_identifier_shape_witness :
    strStartsWith "io.containerd.grpc.v1.cri" "io.containerd." = true ∧
    4 ≤ (splitString '.' "io.containerd.grpc.v1.cri").length :=
  (validateV2_checked_identifier_shape validatedConfig (by decide)).1
    "io.containerd.grpc.v1.cri" (by decide)

/-! ## Claim theorems: import resolver -/

/-- C4 evaluated at the failing input: with an existing file
`plugins.d/a.toml` relative to the process working directory, the
relative glob expression `plugins.d/*.toml`, declared by
`/etc/containerd/config.toml`, resolves to the relative match verbatim.
The source hands a glob expression to `filepath.Glob` untouched — it is
neither cleaned nor joined to the declaring file's directory — so the
returned path is not absolute, contradicting both the claim and the
function's own doc comment ("resolves import strings list to absolute
paths list"). -/
theorem resolveImports_relative_glob_not_absolute :
    resolveImports ["plugins.d/a.toml"] "/etc/containerd/config.toml"
      ["plugins.d/*.toml"] = ["plugins.d/a.toml"] ∧
    isAbs "plugins.d/a.toml" = false := by
  decide

/-! ## Claim theorems: document decoder -/

/-- Lenient decoding ignores the unknown entries: it equals lenient
decoding of the document restricted to its recognized entries, from any
starting target. -/
theorem lenientDecode_filter_known (doc : List TomlEntry) (t : DecodedTree) :
    lenientDecode doc t = lenientDecode (doc.filter TomlEntry.isKnown) t := by
  induction doc generalizing t with
  | nil => rfl
  | cons e d ih =>
    cases e with
    | known k v =>
      rw [List.filter_cons_of_pos rfl]
      rw [lenientDecode, List.foldl_cons, lenientDecode, List.foldl_cons]
      exact ih (applyEntry t (TomlEntry.known k v))
    | unknown k =>
      rw [List.filter_cons_of_neg (by simp [TomlEntry.isKnown])]
      rw [lenientDecode, List.foldl_cons]
      exact ih t

/-- Restricting a document to its recognized entries leaves no
unrecognized keys. -/
theorem strictUnknowns_filter_known (doc : List TomlEntry) :
    strictUnknowns (doc.filter TomlEntry.isKnown) = [] := by
  induction doc with
  | nil => rfl
  | cons e d ih =>
    cases e with
    | known k v =>
      rw [List.filter_cons_of_pos rfl]
      rw [strictUnknowns, List.filterMap_cons]
      exact ih
    | unknown k =>
      rw [List.filter_cons_of_neg (by simp [TomlEntry.isKnown])]
      exact ih

/-- C8: decoding a document whose only deviation from the schema is one
unrecognized top-level key succeeds, emits exactly one warning naming
that key, and yields the same tree as decoding the document with that
key removed (which itself decodes strictly, with no warning); the
lenient retry runs against a fresh empty target, not against state left
by the failed strict pass. -/
theorem loadConfigFile_one_unknown_key (doc : List TomlEntry) (u : String)
    (h : strictUnknowns doc = [u]) :
    (loadConfigFileModel doc).1 =
      (loadConfigFileModel (doc.filter TomlEntry.isKnown)).1 ∧
    (loadConfigFileModel doc).2 = [u] ∧
    (loadConfigFileModel (doc.filter TomlEntry.isKnown)).2 = [] := by
  have hf := strictUnknowns_filter_known doc
  rw [loadConfigFileModel, loadConfigFileModel, strictDecode, strictDecode,
    hf, if_pos rfl, h, if_neg (by simp)]
  exact ⟨lenientDecode_filter_known doc [], rfl, rfl⟩

/-- Witness for C8 at a concrete two-entry document with the single
unknown key "bogus". -/
theorem loadConfigFile_one_unknown_key_witness :
    strictUnknowns
      [TomlEntry.known "root" "/var/lib", TomlEntry.unknown "bogus"] =
      ["bogus"] ∧
    (loadConfigFileModel
      [TomlEntry.known "root" "/var/lib", TomlEntry.unknown "bogus"]).1 =
      (loadConfigFileModel
        ([TomlEntry.known "root" "/var/lib",
          TomlEntry.unknown "bogus"].filter TomlEntry.isKnown)).1 ∧
    (loadConfigFileModel
      [TomlEntry.known "root" "/var/lib", TomlEntry.unknown "bogus"]).2 =
      ["bogus"] :=
  ⟨by decide,
    (loadConfigFile_one_unknown_key _ "bogus" (by decide)).1,
    (loadConfigFile_one_unknown_key _ "bogus" (by decide)).2.1⟩

/-! ## Claim theorems: load orchestrator -/

/-- C10: for every model filesystem and root path, `LoadConfig` called
with a nil output pointer returns the invalid-argument error immediately;
the result is the same for every filesystem, so no file is opened, read
or merged. -/
theorem loadConfig_nil_out_invalid_argument
    (fs : List (String × Config)) (path : String) :
    LoadConfig fs path none = Except.error LoadError.invalidArgument :=
  rfl

/-- C3: for every import graph — cyclic graphs, self-imports and
diamond-shaped re-imports included — the load loop of `LoadConfig`
terminates (`loadLoop` is a total function, by well-founded recursion on
`unloaded_measure_lt`), and on success the list of files that were
decoded and merged contains every path reachable from the root exactly
once: it has no duplicates, because re-encountered paths are skipped via
the visited set, and its members are exactly the reachable paths. -/
theorem loadLoop_visits_reachable_exactly_once
    (fs : List (String × Config)) (root : String) (out merged : Config)
    (visited : List String)
    (hok : loadLoop fs out [] [root] = Except.ok (merged, visited)) :
    visited.Nodup ∧ ∀ q, q ∈ visited ↔ Reaches fs root q :=
  loadLoop_run_spec hok

/-- Root file of the cyclic-import fixture: imports the other file. -/
def cycleConfigA : Config :=
  { emptyConfig with Version := 2, Imports := ["/b.toml"] }

/-- Second file of the cyclic-import fixture: imports the root back,
closing the cycle. -/
def cycleConfigB : Config :=
  { emptyConfig with Version := 2, Imports := ["/a.toml"] }

/-- Two-file model filesystem whose import graph is a cycle. -/
def cycleFs : List (String × Config) :=
  [("/a.toml", cycleConfigA), ("/b.toml", cycleConfigB)]

/-- Accumulated merge of the cyclic fixture in breadth-first order. -/
def cycleMergedConfig : Config :=
  mergeConfig (mergeConfig emptyConfig cycleConfigA) cycleConfigB

/-- Concrete run of the load loop on the cyclic fixture: both files are
processed once, the re-encountered root is skipped, and the loop ends. -/
theorem loadLoop_cycle_eval :
    loadLoop cycleFs emptyConfig [] ["/a.toml"] =
      Except.ok (cycleMergedConfig, ["/b.toml", "/a.toml"]) := by
  rw [loadLoop_step emptyConfig [] (by decide)
    (show lookupKey cycleFs "/a.toml" = some cycleConfigA from rfl)]
  have e1 : ([] : List String) ++
      resolveImports (List.map Prod.fst cycleFs) "/a.toml"
        cycleConfigA.Imports = ["/b.toml"] := by decide
  rw [e1]
  rw [loadLoop_step (mergeConfig emptyConfig cycleConfigA) [] (by decide)
    (show lookupKey cycleFs "/b.toml" = some cycleConfigB from rfl)]
  have e2 : ([] : List String) ++
      resolveImports (List.map Prod.fst cycleFs) "/b.toml"
        cycleConfigB.Imports = ["/a.toml"] := by decide
  rw [e2]
  rw [loadLoop_skip cycleFs _ _ (by decide)]
  rw [loadLoop_nil]
  rfl

/-- Witness for C3 on the cyclic fixture: the run succeeds and the
visited list repeats no path. -/
theorem loadLoop_visits_reachable_exactly_once_witness :
    loadLoop cycleFs emptyConfig [] ["/a.toml"] =
      Except.ok (cycleMergedConfig, ["/b.toml", "/a.toml"]) ∧
    List.Nodup ["/b.toml", "/a.toml"] :=
  ⟨loadLoop_cycle_eval,
    (loadLoop_visits_reachable_exactly_once cycleFs "/a.toml" emptyConfig
      cycleMergedConfig ["/b.toml", "/a.toml"] loadLoop_cycle_eval).1⟩

/-- C7 (amended): after a successful `LoadConfig`, the output tree's
list of imports is the deduplicated set of all file paths visited during the
traversal — each visited path exactly once, and nothing else — replacing
whatever import lists the merged files declared; the order, coming from
Go's unspecified map iteration, is not sorted and not deterministic
across runs. -/
theorem loadConfig_imports_are_visited_set
    (fs : List (String × Config)) (root : String) (out res : Config)
    (hok : LoadConfig fs root (some out) = Except.ok res) :
    res.Imports.Nodup ∧ ∀ q, q ∈ res.Imports ↔ Reaches fs root q := by
  rw [LoadConfig] at hok
  cases hl : loadLoop fs out [] [root] with
  | error e =>
    rw [hl] at hok
    cases hok
  | ok r =>
    obtain ⟨m, l⟩ := r
    rw [hl] at hok
    simp only [Except.bind] at hok
    split at hok
    · cases hok
    · injection hok with h
      subst h
      exact loadLoop_run_spec hl

/-- Result of loading the cyclic fixture through `LoadConfig`. -/
def cycleLoadedConfig : Config :=
  { cycleMergedConfig with Imports := ["/b.toml", "/a.toml"] }

/-- Concrete `LoadConfig` run on the cyclic fixture. -/
theorem loadConfig_cycle_eval :
    LoadConfig cycleFs "/a.toml" (some emptyConfig) =
      Except.ok cycleLoadedConfig := by
  rw [LoadConfig, loadLoop_cycle_eval]
  rfl

/-- Lexicographic order on character lists by code point — Go's
byte-wise string order restricted to the ASCII paths used here. -/
def charsLe : List Char → List Char → Bool
  | [], _ => true
  | _ :: _, [] => false
  | a :: as, b :: bs =>
    if a = b then charsLe as bs else decide (a.toNat < b.toNat)

/-- Go's string order, structurally. -/
def strLe (a b : String) : Bool :=
  charsLe a.data b.data

/-- Counterexample to C7 as stated: on the cyclic fixture the returned
list of imports is the visited set in the model's (admissible) map-iteration
order `["/b.toml", "/a.toml"]`, which is not sorted; the sorted,
deduplicated set of visited paths would be `["/a.toml", "/b.toml"]`, and
the returned list differs from it.  Go iterates the visited map in
unspecified order (config.go line 252), so no sorted outcome is
guaranteed. -/
theorem loadConfig_imports_not_sorted :
    LoadConfig cycleFs "/a.toml" (some emptyConfig) =
      Except.ok cycleLoadedConfig ∧
    cycleLoadedConfig.Imports = ["/b.toml", "/a.toml"] ∧
    ¬ List.Sorted (fun a b : String => strLe a b = true)
      cycleLoadedConfig.Imports ∧
    List.Sorted (fun a b : String => strLe a b = true)
      ["/a.toml", "/b.toml"] ∧
    cycleLoadedConfig.Imports ≠ ["/a.toml", "/b.toml"] :=
  ⟨loadConfig_cycle_eval, rfl, by decide, by decide, by decide⟩

/-- Witness for the amended C7 on the cyclic fixture. -/
theorem loadConfig_imports_are_visited_set_witness :
    cycleLoadedConfig.Imports.Nodup :=
  (loadConfig_imports_are_visited_set cycleFs "/a.toml" emptyConfig
    cycleLoadedConfig loadConfig_cycle_eval).1
